import Mathlib

/-!
Shallow embedding of the SEC filing connector core
(`sec_connector/client.py` and `sec_connector/models.py`):
Python string primitives, the validated data model, and the
lookup/filter engine, with theorems checking the specification's claims.
-/

deriving instance DecidableEq for Except

namespace Sec

/-- Characters removed by Python's default `str.strip`
(space, tab, LF, CR, VT, FF). -/
def pyIsSpace (c : Char) : Bool :=
  c.toNat == 32 || c.toNat == 9 || c.toNat == 10 ||
  c.toNat == 13 || c.toNat == 11 || c.toNat == 12

/-- ASCII uppercase of one character, as Python `str.upper` acts on ASCII. -/
def pyUpperChar (c : Char) : Char :=
  if 97 ≤ c.toNat ∧ c.toNat ≤ 122 then Char.ofNat (c.toNat - 32) else c

/-- ASCII decimal digit test, as Python `str.isdigit` on ASCII input. -/
def pyIsDigit (c : Char) : Bool :=
  decide (48 ≤ c.toNat) && decide (c.toNat ≤ 57)

/-- Both-ends whitespace trim on a character list. -/
def stripList (l : List Char) : List Char :=
  ((l.dropWhile pyIsSpace).reverse.dropWhile pyIsSpace).reverse

/-- Python `s.strip()`. -/
def pyStrip (s : String) : String := ⟨stripList s.data⟩

/-- Python `s.upper()`. -/
def pyUpper (s : String) : String := ⟨s.data.map pyUpperChar⟩

/-- Python `s.zfill(w)`: left-pad with zeros to width `w`,
keeping a leading sign in place. -/
def zfill (s : String) (w : Nat) : String :=
  if w ≤ s.data.length then s
  else
    match s.data with
    | [] => ⟨List.replicate w '0'⟩
    | c :: rest =>
      if c = '-' ∨ c = '+' then ⟨c :: (List.replicate (w - s.data.length) '0' ++ rest)⟩
      else ⟨List.replicate (w - s.data.length) '0' ++ (c :: rest)⟩

/-- Python `s.split(sep)` for a one-character separator. -/
def splitOnChar (sep : Char) : List Char → List (List Char)
  | [] => [[]]
  | c :: rest =>
    match splitOnChar sep rest with
    | h :: t => if c = sep then [] :: h :: t else (c :: h) :: t
    | [] => [[c]]

/-- Numeric value of a list of decimal digit characters. -/
def digitsToNat (l : List Char) : Nat :=
  l.foldl (fun acc c => acc * 10 + (c.toNat - 48)) 0

/-- Python `int(s)` on the decimal strings that occur here: strips whitespace,
allows one leading sign, then requires nonempty all-digit text. -/
def pyIntChars (l : List Char) : Option Int :=
  let t := stripList l
  let signDigits : Int × List Char :=
    match t with
    | '-' :: rest => (-1, rest)
    | '+' :: rest => (1, rest)
    | _ => (1, t)
  if signDigits.2 ≠ [] ∧ signDigits.2.all pyIsDigit = true then
    some (signDigits.1 * (digitsToNat signDigits.2 : Int))
  else none

/-- Decimal digits of `n`, most significant first (fuel-based). -/
def natDigits : Nat → Nat → List Char
  | 0, _ => []
  | fuel + 1, n =>
    if n < 10 then [Char.ofNat (48 + n)]
    else natDigits fuel (n / 10) ++ [Char.ofNat (48 + n % 10)]

/-- Python `str(i)` for an integer. -/
def pyStr (i : Int) : String :=
  if i < 0 then ⟨'-' :: natDigits i.natAbs i.natAbs⟩
  else ⟨natDigits (i.toNat + 1) i.toNat⟩

/-- Calendar date as Python `datetime.date`: a validated (year, month, day) triple. -/
structure Date where
  year : Int
  month : Int
  day : Int
deriving DecidableEq, Repr

/-- Gregorian leap-year rule used by `datetime.date`. -/
def isLeap (y : Int) : Bool :=
  y % 4 == 0 && (y % 100 != 0 || y % 400 == 0)

/-- Length of a month in the proleptic Gregorian calendar. -/
def daysInMonth (y m : Int) : Int :=
  if m = 2 then (if isLeap y then 29 else 28)
  else if m = 4 ∨ m = 6 ∨ m = 9 ∨ m = 11 then 30
  else 31

/-- Python `datetime.date(y, m, d)`: validates the ranges,
raising ValueError otherwise (modeled as `none`). -/
def mkDate (y m d : Int) : Option Date :=
  if 1 ≤ y ∧ y ≤ 9999 ∧ 1 ≤ m ∧ m ≤ 12 ∧ 1 ≤ d ∧ d ≤ daysInMonth y m then
    some ⟨y, m, d⟩
  else none

/-- Lexicographic order on dates, as `datetime.date` comparison (`<=`). -/
def dateLe (a b : Date) : Bool :=
  if a.year ≠ b.year then decide (a.year < b.year)
  else if a.month ≠ b.month then decide (a.month < b.month)
  else decide (a.day ≤ b.day)

/-- Strict lexicographic order on dates (`<`). -/
def dateLt (a b : Date) : Bool :=
  if a.year ≠ b.year then decide (a.year < b.year)
  else if a.month ≠ b.month then decide (a.month < b.month)
  else decide (a.day < b.day)

/-- `SECClient._parse_date`: split on a dash and build a date from the
first three parts; ValueError / IndexError become `none`. -/
def parseDate (s : String) : Option Date :=
  match splitOnChar '-' s.data with
  | p0 :: p1 :: p2 :: _ =>
    match pyIntChars p0, pyIntChars p1, pyIntChars p2 with
    | some y, some m, some d => mkDate y m d
    | _, _, _ => none
  | _ => none

/-- Error taxonomy of the spec: InvalidInput and NotFound are the two
`ValueError` sites in the client, `validation` a pydantic ValidationError. -/
inductive SECError where
  | invalidInput : String → SECError
  | notFound : String → SECError
  | validation : String → SECError
deriving DecidableEq, Repr

/-- Company data model. -/
structure Company where
  ticker : String
  cik : String
  name : String
deriving DecidableEq, Repr

/-- `models.Company` construction: pydantic field constraints
(min/max length) plus the two field validators. -/
def mkCompany (ticker cik name : String) : Except SECError Company :=
  if ticker.data.length < 1 then .error (.validation "ticker: min_length 1")
  else
    let tickerN := pyStrip (pyUpper ticker)
    if cik.data.length < 10 ∨ 10 < cik.data.length then
      .error (.validation "cik: length bounds")
    else
      let cikT := pyStrip cik
      if ¬ (cikT.data ≠ [] ∧ cikT.data.all pyIsDigit = true) then
        .error (.validation "CIK must contain only digits")
      else if cikT.data.length ≠ 10 then
        .error (.validation "CIK must be exactly 10 digits")
      else if name.data.length < 1 then .error (.validation "name: min_length 1")
      else .ok { ticker := tickerN, cik := cikT, name := name }

/-- SEC filings data model. -/
structure Filing where
  cik : String
  company_name : String
  form_type : String
  filing_date : Date
  accession_number : String
deriving DecidableEq, Repr

/-- `models.Filing` construction: the only validator normalizes
`form_type` (uppercase then strip); it cannot fail. -/
def mkFiling (cik company_name form_type : String) (filing_date : Date)
    (accession_number : String) : Filing :=
  { cik := cik, company_name := company_name,
    form_type := pyStrip (pyUpper form_type),
    filing_date := filing_date, accession_number := accession_number }

/-- Search query data model. -/
structure FilingFilter where
  form_types : Option (List String)
  date_from : Option Date
  date_to : Option Date
  limit : Int
deriving DecidableEq, Repr

/-- `models.FilingFilter` construction: normalize `form_types`
(uppercase/trim, drop entries that strip to empty), check
`date_to >= date_from` when both present, and `0 < limit <= 1000`. -/
def mkFilingFilter (form_types : Option (List String)) (date_from date_to : Option Date)
    (limit : Int) : Except SECError FilingFilter :=
  let ftsN := form_types.map fun v =>
    (v.filter fun ft => pyStrip ft ≠ "").map fun ft => pyStrip (pyUpper ft)
  let dateRangeBad : Bool :=
    match date_from, date_to with
    | some df, some dt => dateLt dt df
    | _, _ => false
  if dateRangeBad then .error (.validation "date_to must be >= date_from")
  else if ¬ (0 < limit ∧ limit ≤ 1000) then .error (.validation "limit out of range")
  else .ok { form_types := ftsN, date_from := date_from, date_to := date_to, limit := limit }

/-- Raw company record from the data supplier. -/
structure RawCompany where
  ticker : String
  cik_str : Int
  title : String
deriving DecidableEq, Repr

/-- Raw filing dict from the data supplier; a `none` field models a
missing key (KeyError on access). -/
structure RawFiling where
  company_name : Option String
  form_type : Option String
  filing_date : Option String
  accession_number : Option String
deriving DecidableEq, Repr

/-- Lookup in an insertion-ordered dict. -/
def lookupDict : List (String × α) → String → Option α
  | [], _ => none
  | (k, v) :: rest, key => if k = key then some v else lookupDict rest key

/-- Python dict assignment `d[k] = v`: replace in place or append. -/
def insertDict : List (String × α) → String → α → List (String × α)
  | [], k, v => [(k, v)]
  | (k', v') :: rest, k, v =>
    if k' = k then (k, v) :: rest else (k', v') :: insertDict rest k v

/-- Engine state: the two indices built once at construction. -/
structure SECClient where
  companies_by_ticker : List (String × RawCompany)
  filings : List (String × List RawFiling)
deriving DecidableEq, Repr

/-- `SECClient.__init__`: index companies by normalized ticker
(last record wins on collision), default missing filings data to empty. -/
def SECClient.build (companiesData : List (String × RawCompany))
    (filingsData : Option (List (String × List RawFiling))) : SECClient :=
  { companies_by_ticker :=
      companiesData.foldl (fun idx kv => insertDict idx (pyStrip (pyUpper kv.2.ticker)) kv.2) []
  , filings := filingsData.getD [] }

/-- `SECClient.lookup_company`. -/
def SECClient.lookup_company (c : SECClient) (ticker : String) : Except SECError Company :=
  if pyStrip ticker = "" then .error (.invalidInput "Ticker cannot be empty")
  else
    let t := pyStrip (pyUpper ticker)
    match lookupDict c.companies_by_ticker t with
    | none => .error (.notFound "Ticker not found")
    | some info => mkCompany t (zfill (pyStr info.cik_str) 10) info.title

/-- One iteration of the record loop in `SECClient.list_filings`:
build a `Filing`, any failure (missing key, bad date) yielding `none`. -/
def buildFiling (cik : String) (r : RawFiling) : Option Filing := do
  let cn ← r.company_name
  let ft ← r.form_type
  let ds ← r.filing_date
  let d ← parseDate ds
  let an ← r.accession_number
  some (mkFiling cik cn ft d an)

/-- `SECClient._apply_filters`: each present (and, for `form_types`,
truthy i.e. nonempty) filter field restricts the list in turn. -/
def applyFilters (filings : List Filing) (filters : FilingFilter) : List Filing :=
  let result := filings
  let result :=
    match filters.form_types with
    | none => result
    | some fts =>
      if fts.isEmpty then result
      else
        let ftsU := fts.map pyUpper
        result.filter fun f => ftsU.contains (pyUpper f.form_type)
  let result :=
    match filters.date_from with
    | none => result
    | some d => result.filter
        fun f => dateLe d f.filing_date
  let result :=
    match filters.date_to with
    | none => result
    | some d => result.filter
        fun f => dateLe f.filing_date d
  result

/-- Stable insert for descending order: `x` goes in front of the first
element strictly older than it, hence after any element of equal date. -/
def insertD (x : Filing) : List Filing → List Filing
  | [] => [x]
  | y :: ys =>
    if dateLt y.filing_date x.filing_date then x :: y :: ys
    else y :: insertD x ys

/-- Model of `filtered.sort(key=lambda f: f.filing_date, reverse=True)`:
the stable sort by filing date, most recent first (a total preorder has a
unique stable sort, so insertion sort is extensionally the Python sort). -/
def sortFilings (l : List Filing) : List Filing :=
  l.foldl (fun acc x => insertD x acc) []

/-- Python slice `l[:n]` for an integer bound `n`. -/
def pySliceTo (l : List α) (n : Int) : List α :=
  if 0 ≤ n then l.take n.toNat
  else l.take (l.length - (-n).toNat)

/-- `SECClient.list_filings`. -/
def SECClient.list_filings (c : SECClient) (cik : String) (filters : FilingFilter) :
    Except SECError (List Filing) :=
  if pyStrip cik = "" then .error (.invalidInput "CIK cannot be empty")
  else
    let cikN := zfill (pyStrip cik) 10
    match lookupDict c.filings cikN with
    | none => .error (.notFound "No filings found for CIK")
    | some raw =>
      let filings := raw.filterMap (buildFiling cikN)
      let filtered := applyFilters filings filters
      let sorted := sortFilings filtered
      .ok (pySliceTo sorted filters.limit)

/-- State-passing form of `SECClient.list_filings`: the engine state and the
filter argument are threaded through and returned; the method body contains
no assignment to `self` fields or to the filter, so every exit returns them
as received. -/
def SECClient.list_filingsS (c : SECClient) (cik : String) (filters : FilingFilter) :
    SECClient × FilingFilter × Except SECError (List Filing) :=
  if pyStrip cik = "" then (c, filters, .error (.invalidInput "CIK cannot be empty"))
  else
    let cikN := zfill (pyStrip cik) 10
    match lookupDict c.filings cikN with
    | none => (c, filters, .error (.notFound "No filings found for CIK"))
    | some raw =>
      let filings := raw.filterMap (buildFiling cikN)
      let filtered := applyFilters filings filters
      let sorted := sortFilings filtered
      (c, filters, .ok (pySliceTo sorted filters.limit))

/-! Character-level facts about the ASCII uppercase map. -/

theorem toNat_charOfNat {n : Nat} (h : n < 55296) : (Char.ofNat n).toNat = n := by
  have hv : Nat.isValidChar n := Or.inl h
  rw [Char.ofNat, dif_pos hv]
  rfl

theorem pyUpperChar_toNat_of_lower {c : Char} (h : 97 ≤ c.toNat ∧ c.toNat ≤ 122) :
    (pyUpperChar c).toNat = c.toNat - 32 := by
  rw [pyUpperChar, if_pos h]
  exact toNat_charOfNat (by omega)

theorem pyUpperChar_idem (c : Char) : pyUpperChar (pyUpperChar c) = pyUpperChar c := by
  by_cases h : 97 ≤ c.toNat ∧ c.toNat ≤ 122
  · have ht := pyUpperChar_toNat_of_lower h
    rw [pyUpperChar, if_neg (by omega)]
  · have hcc : pyUpperChar c = c := by rw [pyUpperChar, if_neg h]
    rw [hcc]; exact hcc

theorem pyIsSpace_pyUpperChar (c : Char) : pyIsSpace (pyUpperChar c) = pyIsSpace c := by
  by_cases h : 97 ≤ c.toNat ∧ c.toNat ≤ 122
  · have ht := pyUpperChar_toNat_of_lower h
    simp only [pyIsSpace, ht]
    have h32 : (c.toNat - 32 == 32) = false := by simp; omega
    have h9 : (c.toNat - 32 == 9) = false := by simp; omega
    have h10 : (c.toNat - 32 == 10) = false := by simp; omega
    have h13 : (c.toNat - 32 == 13) = false := by simp; omega
    have h11 : (c.toNat - 32 == 11) = false := by simp; omega
    have h12 : (c.toNat - 32 == 12) = false := by simp; omega
    have g32 : (c.toNat == 32) = false := by simp; omega
    have g9 : (c.toNat == 9) = false := by simp; omega
    have g10 : (c.toNat == 10) = false := by simp; omega
    have g13 : (c.toNat == 13) = false := by simp; omega
    have g11 : (c.toNat == 11) = false := by simp; omega
    have g12 : (c.toNat == 12) = false := by simp; omega
    rw [h32, h9, h10, h13, h11, h12, g32, g9, g10, g13, g11, g12]
  · rw [pyUpperChar, if_neg h]

/-! List-level facts about whitespace stripping. -/

theorem dropWhile_head_false {p : Char → Bool} :
    ∀ {l : List Char} {c : Char} {cs : List Char}, l.dropWhile p = c :: cs → p c = false := by
  intro l
  induction l with
  | nil => intro c cs h; simp [List.dropWhile] at h
  | cons a t ih =>
    intro c cs h
    rw [List.dropWhile_cons] at h
    split at h
    · exact ih h
    · next hpa => cases h; simpa using hpa

theorem dropWhile_dropWhile {p : Char → Bool} (l : List Char) :
    (l.dropWhile p).dropWhile p = l.dropWhile p := by
  cases h : l.dropWhile p with
  | nil => rfl
  | cons c cs => simp [List.dropWhile_cons, dropWhile_head_false h]

theorem stripList_idem (l : List Char) : stripList (stripList l) = stripList l := by
  have h1 : (((l.dropWhile pyIsSpace).reverse.dropWhile pyIsSpace).reverse).dropWhile pyIsSpace
      = ((l.dropWhile pyIsSpace).reverse.dropWhile pyIsSpace).reverse := by
    cases hw : ((l.dropWhile pyIsSpace).reverse.dropWhile pyIsSpace).reverse with
    | nil => simp
    | cons c cs =>
      have hlast : ((l.dropWhile pyIsSpace).reverse.dropWhile pyIsSpace).getLast? = some c := by
        rw [← List.head?_reverse, hw]; rfl
      have hsuf := List.dropWhile_suffix (l := (l.dropWhile pyIsSpace).reverse) pyIsSpace
      obtain ⟨t, ht⟩ := hsuf
      have hlastu : (l.dropWhile pyIsSpace).reverse.getLast? = some c := by
        rw [← ht, List.getLast?_append, hlast]; rfl
      have hheadu : (l.dropWhile pyIsSpace).head? = some c := by
        have := List.head?_reverse (l.dropWhile pyIsSpace).reverse
        rw [List.reverse_reverse] at this
        rw [this, hlastu]
      have hc : pyIsSpace c = false := by
        cases hu : l.dropWhile pyIsSpace with
        | nil => rw [hu] at hheadu; simp at hheadu
        | cons a t' =>
          rw [hu] at hheadu
          simp at hheadu
          exact hheadu ▸ dropWhile_head_false hu
      simp [List.dropWhile_cons, hc]
  unfold stripList
  rw [h1, List.reverse_reverse, dropWhile_dropWhile]

theorem stripList_map_upper (l : List Char) :
    stripList (l.map pyUpperChar) = (stripList l).map pyUpperChar := by
  have hp : (pyIsSpace ∘ pyUpperChar) = pyIsSpace := funext fun c => pyIsSpace_pyUpperChar c
  unfold stripList
  rw [List.dropWhile_map, hp, ← List.map_reverse, List.dropWhile_map, hp, ← List.map_reverse]

/-! String-level normalization algebra: `pyStrip` and `pyUpper` commute and
are idempotent, so the ticker normal form is stable. -/

theorem pyStrip_pyUpper (s : String) : pyStrip (pyUpper s) = pyUpper (pyStrip s) := by
  show (⟨stripList (s.data.map pyUpperChar)⟩ : String) = ⟨(stripList s.data).map pyUpperChar⟩
  rw [stripList_map_upper]

theorem pyStrip_idem (s : String) : pyStrip (pyStrip s) = pyStrip s := by
  show (⟨stripList (stripList s.data)⟩ : String) = ⟨stripList s.data⟩
  rw [stripList_idem]

theorem pyUpper_idem (s : String) : pyUpper (pyUpper s) = pyUpper s := by
  show (⟨(s.data.map pyUpperChar).map pyUpperChar⟩ : String) = ⟨s.data.map pyUpperChar⟩
  rw [List.map_map]
  rw [show (pyUpperChar ∘ pyUpperChar) = pyUpperChar from funext fun c => pyUpperChar_idem c]

theorem normTicker_idem (s : String) :
    pyStrip (pyUpper (pyStrip (pyUpper s))) = pyStrip (pyUpper s) := by
  rw [← pyStrip_pyUpper (pyUpper s), pyUpper_idem, pyStrip_idem]

/-! Linear-order facts about dates. -/

theorem dateLe_iff (a b : Date) : dateLe a b = true ↔
    (a.year < b.year ∨ (a.year = b.year ∧ (a.month < b.month ∨
      (a.month = b.month ∧ a.day ≤ b.day)))) := by
  unfold dateLe
  split_ifs with h1 h2 <;> simp <;> omega

theorem dateLt_iff (a b : Date) : dateLt a b = true ↔
    (a.year < b.year ∨ (a.year = b.year ∧ (a.month < b.month ∨
      (a.month = b.month ∧ a.day < b.day)))) := by
  unfold dateLt
  split_ifs with h1 h2 <;> simp <;> omega

theorem dateLe_trans {a b c : Date} (h1 : dateLe a b = true) (h2 : dateLe b c = true) :
    dateLe a c = true := by
  rw [dateLe_iff] at h1 h2 ⊢
  omega

theorem dateLt_le {a b : Date} (h : dateLt a b = true) : dateLe a b = true := by
  rw [dateLt_iff] at h
  rw [dateLe_iff]
  omega

theorem dateLe_lt_trans {a b c : Date} (h1 : dateLe a b = true) (h2 : dateLt b c = true) :
    dateLt a c = true := by
  rw [dateLe_iff] at h1
  rw [dateLt_iff] at h2 ⊢
  omega

theorem dateLt_not {a b : Date} (h : ¬ dateLt a b = true) : dateLe b a = true := by
  rw [dateLe_iff]
  rw [dateLt_iff] at h
  omega

theorem dateLt_ne {a b : Date} (h : dateLt a b = true) : a ≠ b := by
  intro heq
  rw [heq, dateLt_iff] at h
  omega

/-- Descending comparison used for the sort: `a` is at least as recent as `b`. -/
def filingGE (a b : Filing) : Prop := dateLe b.filing_date a.filing_date = true

/-! Correctness of the stable descending insertion sort modeling
`filtered.sort(key=lambda f: f.filing_date, reverse=True)`. -/

theorem mem_insertD {x z : Filing} : ∀ {acc : List Filing},
    z ∈ insertD x acc ↔ z = x ∨ z ∈ acc := by
  intro acc
  induction acc with
  | nil => simp [insertD]
  | cons y ys ih =>
    rw [insertD]
    split
    · simp [List.mem_cons]
    · simp only [List.mem_cons, ih]
      tauto

theorem pairwise_insertD {x : Filing} : ∀ {acc : List Filing},
    acc.Pairwise filingGE → (insertD x acc).Pairwise filingGE := by
  intro acc
  induction acc with
  | nil => intro _; simp [insertD]
  | cons y ys ih =>
    intro h
    rw [List.pairwise_cons] at h
    obtain ⟨hy, hys⟩ := h
    rw [insertD]
    split
    · next hlt =>
      rw [List.pairwise_cons]
      refine ⟨?_, by rw [List.pairwise_cons]; exact ⟨hy, hys⟩⟩
      intro z hz
      rcases List.mem_cons.mp hz with rfl | hz'
      · exact dateLt_le hlt
      · exact dateLe_trans (hy z hz') (dateLt_le hlt)
    · next hnlt =>
      rw [List.pairwise_cons]
      refine ⟨?_, ih hys⟩
      intro z hz
      rcases mem_insertD.mp hz with rfl | hz'
      · exact dateLt_not hnlt
      · exact hy z hz'

theorem filter_insertD {x : Filing} {d : Date} : ∀ {acc : List Filing},
    acc.Pairwise filingGE →
    (insertD x acc).filter (fun f => decide (f.filing_date = d)) =
      (if x.filing_date = d
       then acc.filter (fun f => decide (f.filing_date = d)) ++ [x]
       else acc.filter (fun f => decide (f.filing_date = d))) := by
  intro acc
  induction acc with
  | nil =>
    intro _
    by_cases hxd : x.filing_date = d <;>
      simp [insertD, List.filter_cons, hxd]
  | cons y ys ih =>
    intro h
    rw [List.pairwise_cons] at h
    obtain ⟨hy, hys⟩ := h
    rw [insertD]
    split
    · next hlt =>
      by_cases hxd : x.filing_date = d
      · have hnil : (y :: ys).filter (fun f => decide (f.filing_date = d)) = [] := by
          rw [List.filter_eq_nil_iff]
          intro z hz
          have hzx : dateLt z.filing_date x.filing_date = true := by
            rcases List.mem_cons.mp hz with rfl | hz'
            · exact hlt
            · exact dateLe_lt_trans (hy z hz') hlt
          simp only [decide_eq_true_eq]
          intro heq
          exact dateLt_ne hzx (heq.trans hxd.symm)
        rw [if_pos hxd, hnil, List.filter_cons, if_pos (by simp [hxd]), hnil]
        rfl
      · rw [if_neg hxd, List.filter_cons, if_neg (by simp [hxd])]
    · next hnlt =>
      have hres := ih hys
      by_cases hxd : x.filing_date = d
      · rw [if_pos hxd] at hres ⊢
        rw [List.filter_cons, hres, List.filter_cons]
        by_cases hyd : y.filing_date = d <;> simp [hyd]
      · rw [if_neg hxd] at hres ⊢
        rw [List.filter_cons, hres, List.filter_cons]

theorem sortAux_pairwise : ∀ (l acc : List Filing), acc.Pairwise filingGE →
    (l.foldl (fun a x => insertD x a) acc).Pairwise filingGE := by
  intro l
  induction l with
  | nil => intro acc h; exact h
  | cons x t ih => intro acc h; exact ih _ (pairwise_insertD h)

theorem sortFilings_pairwise (l : List Filing) : (sortFilings l).Pairwise filingGE :=
  sortAux_pairwise l [] (by simp)

theorem sortAux_filter (d : Date) : ∀ (l acc : List Filing), acc.Pairwise filingGE →
    (l.foldl (fun a x => insertD x a) acc).filter (fun f => decide (f.filing_date = d)) =
      acc.filter (fun f => decide (f.filing_date = d)) ++
        l.filter (fun f => decide (f.filing_date = d)) := by
  intro l
  induction l with
  | nil => intro acc h; simp
  | cons x t ih =>
    intro acc h
    show (t.foldl (fun a x => insertD x a) (insertD x acc)).filter _ = _
    rw [ih (insertD x acc) (pairwise_insertD h), filter_insertD h, List.filter_cons]
    by_cases hxd : x.filing_date = d <;> simp [hxd]

theorem sortFilings_filter (l : List Filing) (d : Date) :
    (sortFilings l).filter (fun f => decide (f.filing_date = d)) =
      l.filter (fun f => decide (f.filing_date = d)) := by
  simpa using sortAux_filter d l [] (by simp)

/-! Characterizing `_apply_filters` as one filter pass. -/

/-- Form-type predicate as the code implements it: a `None` or *empty*
(falsy) `form_types` list imposes no constraint; a nonempty one requires
case-insensitive membership. -/
def formTypeOk (flt : FilingFilter) (f : Filing) : Bool :=
  match flt.form_types with
  | none => true
  | some fts => fts.isEmpty || (fts.map pyUpper).contains (pyUpper f.form_type)

/-- Lower-bound date predicate: absent `date_from` imposes no constraint. -/
def dateFromOk (flt : FilingFilter) (f : Filing) : Bool :=
  match flt.date_from with
  | none => true
  | some dd => dateLe dd f.filing_date

/-- Upper-bound date predicate: absent `date_to` imposes no constraint. -/
def dateToOk (flt : FilingFilter) (f : Filing) : Bool :=
  match flt.date_to with
  | none => true
  | some dd => dateLe f.filing_date dd

/-- Conjunction of the three per-field predicates, as the code applies them. -/
def matchesFilter (flt : FilingFilter) (f : Filing) : Bool :=
  formTypeOk flt f && dateFromOk flt f && dateToOk flt f

/-- The filtering predicate exactly as claim C1 words it: whenever
`form_types` is present (`some`), membership of the normalized form type is
required — even when the present list is empty. -/
def specMatchesC1 (flt : FilingFilter) (f : Filing) : Bool :=
  (match flt.form_types with
   | none => true
   | some fts => (fts.map pyUpper).contains (pyUpper f.form_type)) &&
  dateFromOk flt f && dateToOk flt f

theorem filter_tt (l : List Filing) : l.filter (fun _ => true) = l := by
  induction l with
  | nil => rfl
  | cons a t ih => rw [List.filter_cons]; simp [ih]

theorem applyFilters_eq_filter (fs : List Filing) (flt : FilingFilter) :
    applyFilters fs flt = fs.filter (matchesFilter flt) := by
  obtain ⟨ft, df, dt, lim⟩ := flt
  have hpt : ∀ (q : Filing → Bool), (∀ x ∈ fs, q x = true) → fs = fs.filter q := by
    intro q hq
    symm
    exact (List.filter_congr (fun x hx => by rw [hq x hx])).trans (filter_tt fs)
  cases ft with
  | none =>
    cases df <;> cases dt <;>
      simp [applyFilters, List.filter_filter] <;>
      first
        | (apply hpt; intro x hx; simp [matchesFilter, formTypeOk, dateFromOk, dateToOk])
        | (apply List.filter_congr; intro x hx;
            simp [matchesFilter, formTypeOk, dateFromOk, dateToOk,
              Bool.and_comm, Bool.and_assoc, Bool.and_left_comm])
  | some fts =>
    cases fts with
    | nil =>
      cases df <;> cases dt <;>
        simp [applyFilters, List.filter_filter] <;>
        first
          | (apply hpt; intro x hx; simp [matchesFilter, formTypeOk, dateFromOk, dateToOk])
          | (apply List.filter_congr; intro x hx;
              simp [matchesFilter, formTypeOk, dateFromOk, dateToOk,
                Bool.and_comm, Bool.and_assoc, Bool.and_left_comm])
    | cons a t =>
      cases df <;> cases dt <;>
        simp [applyFilters, List.filter_filter] <;>
        first
          | (apply hpt; intro x hx; simp [matchesFilter, formTypeOk, dateFromOk, dateToOk])
          | (apply List.filter_congr; intro x hx;
              simp [matchesFilter, formTypeOk, dateFromOk, dateToOk,
                Bool.and_comm, Bool.and_assoc, Bool.and_left_comm])

/-! Emptiness of the strip, and strings without whitespace. -/

theorem stripList_eq_nil_iff (l : List Char) :
    stripList l = [] ↔ l.all pyIsSpace = true := by
  unfold stripList
  rw [List.reverse_eq_nil_iff, List.dropWhile_eq_nil_iff]
  constructor
  · intro h
    rw [List.all_eq_true]
    intro x hx
    by_cases hmem : x ∈ l.dropWhile pyIsSpace
    · exact h x (List.mem_reverse.mpr hmem)
    · rcases (List.takeWhile_append_dropWhile pyIsSpace l) ▸ hx with hx'
      rcases List.mem_append.mp ((List.takeWhile_append_dropWhile pyIsSpace l).symm ▸ hx) with h1 | h2
      · exact List.mem_takeWhile_imp h1
      · exact absurd h2 hmem
  · intro h x hx
    rw [List.all_eq_true] at h
    exact h x (List.dropWhile_suffix pyIsSpace |>.subset (List.mem_reverse.mp hx))

theorem pyStrip_eq_empty_iff (s : String) :
    pyStrip s = "" ↔ s.data.all pyIsSpace = true := by
  constructor
  · intro h
    have hdata : stripList s.data = [] := congrArg String.data h
    exact (stripList_eq_nil_iff s.data).mp hdata
  · intro h
    have hdata : stripList s.data = [] := (stripList_eq_nil_iff s.data).mpr h
    show (⟨stripList s.data⟩ : String) = ""
    rw [hdata]

theorem dropWhile_eq_self_of_all {p : Char → Bool} {l : List Char}
    (h : ∀ c ∈ l, p c = false) : l.dropWhile p = l := by
  cases l with
  | nil => rfl
  | cons a t => rw [List.dropWhile_cons, h a (List.mem_cons_self a t)]; simp

theorem stripList_eq_self_of_all {l : List Char}
    (h : ∀ c ∈ l, pyIsSpace c = false) : stripList l = l := by
  unfold stripList
  rw [dropWhile_eq_self_of_all h,
    dropWhile_eq_self_of_all (fun c hc => h c (List.mem_reverse.mp hc)),
    List.reverse_reverse]

/-! Characters produced by `pyStr` and `zfill` are never whitespace. -/

theorem mem_natDigits : ∀ (fuel n : Nat) (c : Char), c ∈ natDigits fuel n →
    ∃ d, d < 10 ∧ c = Char.ofNat (48 + d) := by
  intro fuel
  induction fuel with
  | zero => intro n c hc; simp [natDigits] at hc
  | succ k ih =>
    intro n c hc
    rw [natDigits] at hc
    split at hc
    · next h => exact ⟨n, h, by simpa using hc⟩
    · rcases List.mem_append.mp hc with h1 | h2
      · exact ih _ c h1
      · exact ⟨n % 10, Nat.mod_lt _ (by omega), by simpa using h2⟩

theorem pyIsSpace_digitChar {d : Nat} (h : d < 10) :
    pyIsSpace (Char.ofNat (48 + d)) = false := by
  have ht : (Char.ofNat (48 + d)).toNat = 48 + d := toNat_charOfNat (by omega)
  simp [pyIsSpace, ht]
  omega

theorem pyStr_no_space (i : Int) : ∀ c ∈ (pyStr i).data, pyIsSpace c = false := by
  intro c hc
  unfold pyStr at hc
  split at hc
  · rcases List.mem_cons.mp hc with rfl | h2
    · decide
    · obtain ⟨d, hd, rfl⟩ := mem_natDigits _ _ c h2
      exact pyIsSpace_digitChar hd
  · obtain ⟨d, hd, rfl⟩ := mem_natDigits _ _ c hc
    exact pyIsSpace_digitChar hd

theorem mem_zfill {s : String} {w : Nat} {c : Char} (hc : c ∈ (zfill s w).data) :
    c ∈ s.data ∨ c = '0' := by
  unfold zfill at hc
  split at hc
  · exact Or.inl hc
  · split at hc
    · next heq =>
      have hc2 : c ∈ List.replicate w '0' := hc
      exact Or.inr (List.mem_replicate.mp hc2).2
    · next hd rest heq =>
      split at hc
      · have hc2 : c ∈ hd :: (List.replicate (w - s.data.length) '0' ++ rest) := hc
        rcases List.mem_cons.mp hc2 with rfl | h2
        · rw [heq]
          exact Or.inl (List.mem_cons_self _ _)
        · rcases List.mem_append.mp h2 with h3 | h4
          · exact Or.inr (List.mem_replicate.mp h3).2
          · rw [heq]
            exact Or.inl (List.mem_cons_of_mem _ h4)
      · have hc2 : c ∈ List.replicate (w - s.data.length) '0' ++ (hd :: rest) := hc
        rcases List.mem_append.mp hc2 with h3 | h4
        · exact Or.inr (List.mem_replicate.mp h3).2
        · rw [heq]
          exact Or.inl h4

theorem pyStrip_zfill_pyStr (i : Int) (w : Nat) :
    pyStrip (zfill (pyStr i) w) = zfill (pyStr i) w := by
  rw [show pyStrip (zfill (pyStr i) w) = ⟨stripList (zfill (pyStr i) w).data⟩ from rfl]
  rw [stripList_eq_self_of_all]
  intro c hc
  rcases mem_zfill hc with h1 | rfl
  · exact pyStr_no_space i c h1
  · decide

/-! Dictionary lemmas. -/

theorem lookupDict_insertDict (d : List (String × α)) (k key : String) (v : α) :
    lookupDict (insertDict d k v) key = if k = key then some v else lookupDict d key := by
  induction d with
  | nil => simp [insertDict, lookupDict]
  | cons kv rest ih =>
    obtain ⟨k', v'⟩ := kv
    rw [insertDict]
    split
    · next hk =>
      subst hk
      by_cases hkey : k' = key <;> simp [lookupDict, hkey]
    · next hk =>
      by_cases hkey : k' = key
      · subst hkey
        have hkk : ¬ k = k' := fun h => hk h.symm
        simp [lookupDict, hkk]
      · simp [lookupDict, hkey, ih]

/-- Last raw company record in the mapping whose normalized ticker is `t`
(the record a Python dict rebuild would retain). -/
def lastTickerRecord (t : String) : List (String × RawCompany) → Option RawCompany
  | [] => none
  | kv :: rest =>
    (lastTickerRecord t rest).or
      (if pyStrip (pyUpper kv.2.ticker) = t then some kv.2 else none)

theorem lookup_foldl_insert (t : String) : ∀ (data : List (String × RawCompany))
    (idx : List (String × RawCompany)),
    lookupDict (data.foldl (fun i kv => insertDict i (pyStrip (pyUpper kv.2.ticker)) kv.2) idx) t
      = (lastTickerRecord t data).or (lookupDict idx t) := by
  intro data
  induction data with
  | nil => intro idx; simp [lastTickerRecord]
  | cons kv rest ih =>
    intro idx
    rw [List.foldl_cons, ih, lastTickerRecord]
    rw [lookupDict_insertDict]
    cases hrest : lastTickerRecord t rest with
    | some r => simp [Option.or]
    | none =>
      by_cases hk : pyStrip (pyUpper kv.2.ticker) = t <;> simp [Option.or, hk]

theorem lookupDict_build (cd : List (String × RawCompany))
    (fd : Option (List (String × List RawFiling))) (t : String) :
    lookupDict (SECClient.build cd fd).companies_by_ticker t = lastTickerRecord t cd := by
  show lookupDict (cd.foldl (fun i kv => insertDict i (pyStrip (pyUpper kv.2.ticker)) kv.2) []) t
      = lastTickerRecord t cd
  rw [lookup_foldl_insert]
  cases lastTickerRecord t cd <;> simp [Option.or, lookupDict]

/-! Truncation. -/

theorem pySliceTo_sublist (l : List α) (n : Int) : List.Sublist (pySliceTo l n) l := by
  unfold pySliceTo
  split <;> exact List.take_sublist _ _

theorem dateLe_not_lt {a b : Date} (h : dateLe a b = true) : dateLt b a = false := by
  rw [Bool.eq_false_iff]
  intro hlt
  rw [dateLe_iff] at h
  rw [dateLt_iff] at hlt
  omega

/-! Concrete fixtures used by witnesses and counterexamples. -/

def sampleRawA : RawFiling :=
  { company_name := some "Apple Inc.", form_type := some "10-K",
    filing_date := some "2023-01-15", accession_number := some "acc1" }

def sampleRawBad : RawFiling :=
  { company_name := some "Apple Inc.", form_type := some "10-Q",
    filing_date := some "2023-06-15", accession_number := none }

def sampleRawB : RawFiling :=
  { company_name := some "Apple Inc.", form_type := some "10-Q",
    filing_date := some "2023-06-20", accession_number := some "acc3" }

def sampleClient : SECClient :=
  SECClient.build
    [("320193", { ticker := "aapl ", cik_str := 320193, title := "Apple Inc." })]
    (some [("0000320193", [sampleRawA, sampleRawBad, sampleRawB])])

def sampleFiling : Filing :=
  { cik := "0000320193", company_name := "Apple Inc.", form_type := "10-K",
    filing_date := ⟨2023, 1, 15⟩, accession_number := "acc1" }

/-! Claim theorems. -/

/-- C1, counterexample: the claim fails as stated for a present-but-empty
`form_types` list, which is reachable through validated construction
(`FilingFilter(form_types=[" "])` normalizes to `some []`): the code keeps a
filing that the claim's conjunction (membership in the empty normalized set)
rejects, because `_apply_filters` tests Python truthiness, not presence. -/
theorem C1_counterexample :
    mkFilingFilter (some [" "]) none none 10 =
      .ok { form_types := some [], date_from := none, date_to := none, limit := 10 } ∧
    applyFilters [sampleFiling]
        { form_types := some [], date_from := none, date_to := none, limit := 10 } =
      [sampleFiling] ∧
    specMatchesC1 { form_types := some [], date_from := none, date_to := none, limit := 10 }
      sampleFiling = false ∧
    applyFilters [sampleFiling]
        { form_types := some [], date_from := none, date_to := none, limit := 10 } ≠
      [sampleFiling].filter (specMatchesC1
        { form_types := some [], date_from := none, date_to := none, limit := 10 }) := by
  refine ⟨by decide, by decide, by decide, by decide⟩

/-- C1 (amended): the pre-truncation, pre-sort stage of `list_filings` keeps
exactly the filings satisfying the conjunction of the predicates, where the
`form_types` membership constraint applies only when the field is present
AND nonempty; date bounds apply whenever present; an absent field imposes
no constraint. -/
theorem C1_filtering (fs : List Filing) (flt : FilingFilter) :
    applyFilters fs flt = fs.filter (matchesFilter flt) ∧
    ∀ f, f ∈ applyFilters fs flt ↔ (f ∈ fs ∧ matchesFilter flt f = true) := by
  refine ⟨applyFilters_eq_filter fs flt, ?_⟩
  intro f
  rw [applyFilters_eq_filter fs flt]
  exact List.mem_filter

/-- C6: `list_filings` fails with the InvalidInput-kind error iff the cik is
empty or whitespace-only; with the NotFound-kind error iff the cik is
nonempty after trim but its zero-padded form has no entry in the filings
index; in all remaining cases the call returns normally. -/
theorem C6_error_conditions (c : SECClient) (cik : String) (flt : FilingFilter) :
    ((∃ m, c.list_filings cik flt = .error (.invalidInput m)) ↔
      cik.data.all pyIsSpace = true) ∧
    ((∃ m, c.list_filings cik flt = .error (.notFound m)) ↔
      (cik.data.all pyIsSpace = false ∧
        lookupDict c.filings (zfill (pyStrip cik) 10) = none)) ∧
    ((∃ res, c.list_filings cik flt = .ok res) ↔
      (cik.data.all pyIsSpace = false ∧
        (lookupDict c.filings (zfill (pyStrip cik) 10)).isSome = true)) := by
  by_cases hempty : pyStrip cik = ""
  · have hall : cik.data.all pyIsSpace = true := (pyStrip_eq_empty_iff cik).mp hempty
    simp [SECClient.list_filings, hempty, hall]
  · have hall : cik.data.all pyIsSpace = false := by
      rw [Bool.eq_false_iff]
      exact fun h => hempty ((pyStrip_eq_empty_iff cik).mpr h)
    cases hlook : lookupDict c.filings (zfill (pyStrip cik) 10) with
    | none => simp [SECClient.list_filings, hempty, hlook, hall]
    | some raw => simp [SECClient.list_filings, hempty, hlook, hall]

/-- Value produced by a successful `mkFilingFilter` call. -/
def normalizedFilterValue (form_types : Option (List String)) (date_from date_to : Option Date)
    (limit : Int) : FilingFilter :=
  let ftsN := form_types.map fun v =>
    (v.filter fun ft => pyStrip ft ≠ "").map fun ft => pyStrip (pyUpper ft)
  { form_types := ftsN, date_from := date_from, date_to := date_to, limit := limit }

/-- C7: constructing a FilingFilter with both dates present and
`date_to < date_from` fails with a ValidationError-kind error; when the
dates do not violate the range check (at most one present, or in order)
and the limit is in range, construction succeeds. -/
theorem C7_date_range_check (ftypes : Option (List String)) (d1 d2 : Option Date) (lim : Int) :
    (∀ a b, d1 = some a → d2 = some b → dateLt b a = true →
      ∃ m, mkFilingFilter ftypes d1 d2 lim = .error (.validation m)) ∧
    ((∀ a b, d1 = some a → d2 = some b → dateLe a b = true) → 0 < lim → lim ≤ 1000 →
      ∃ f, mkFilingFilter ftypes d1 d2 lim = .ok f) := by
  constructor
  · intro a b h1 h2 hlt
    subst h1
    subst h2
    exact ⟨"date_to must be >= date_from", by simp [mkFilingFilter, hlt]⟩
  · intro hle h0 h1000
    refine ⟨normalizedFilterValue ftypes d1 d2 lim, ?_⟩
    cases d1 with
    | none => cases d2 <;> simp [mkFilingFilter, normalizedFilterValue, h0, h1000]
    | some a =>
      cases d2 with
      | none => simp [mkFilingFilter, normalizedFilterValue, h0, h1000]
      | some b =>
        simp [mkFilingFilter, normalizedFilterValue, dateLe_not_lt (hle a b rfl rfl), h0, h1000]

/-- C9: the state-passing embedding of `list_filings` returns the engine
state (both indices together with the raw records they hold) and the filter
argument unchanged on every path, and its result component coincides with
the direct function; the call has no effect other than its return value. -/
theorem C9_no_side_effects (c : SECClient) (cik : String) (flt : FilingFilter) :
    (c.list_filingsS cik flt).1 = c ∧ (c.list_filingsS cik flt).2.1 = flt ∧
    (c.list_filingsS cik flt).2.2 = c.list_filings cik flt := by
  by_cases h : pyStrip cik = ""
  · simp [SECClient.list_filingsS, SECClient.list_filings, h]
  · cases hlook : lookupDict c.filings (zfill (pyStrip cik) 10) <;>
      simp [SECClient.list_filingsS, SECClient.list_filings, h, hlook]

/-- C10: constructing the engine with the filings mapping omitted (None)
yields an empty filings index, so every cik that is nonempty after trim is
answered with the NotFound-kind error. -/
theorem C10_missing_filings_data (cd : List (String × RawCompany)) (cik : String)
    (flt : FilingFilter) (hne : cik.data.all pyIsSpace = false) :
    (SECClient.build cd none).list_filings cik flt =
      .error (.notFound "No filings found for CIK") := by
  have hempty : ¬ pyStrip cik = "" := by
    intro h
    have hall := (pyStrip_eq_empty_iff cik).mp h
    rw [hall] at hne
    simp at hne
  have hfil : (SECClient.build cd none).filings = [] := rfl
  simp [SECClient.list_filings, hempty, hfil, lookupDict]

/-- C10, witness at a concrete engine and cik. -/
theorem C10_witness :
    (SECClient.build [("k", { ticker := "AAPL", cik_str := 320193, title := "Apple Inc." })]
      none).list_filings "320193" { form_types := none, date_from := none, date_to := none, limit := 10 } =
      .error (.notFound "No filings found for CIK") :=
  C10_missing_filings_data _ _ _ (by decide)

/-- C7, witness: a reversed date range is rejected, an ordered one accepted. -/
theorem C7_witness :
    (∃ m, mkFilingFilter none (some ⟨2023, 5, 1⟩) (some ⟨2023, 1, 1⟩) 10 =
      .error (.validation m)) ∧
    (∃ f, mkFilingFilter none (some ⟨2023, 1, 1⟩) (some ⟨2023, 5, 1⟩) 10 = .ok f) :=
  ⟨(C7_date_range_check none (some ⟨2023, 5, 1⟩) (some ⟨2023, 1, 1⟩) 10).1
      ⟨2023, 5, 1⟩ ⟨2023, 1, 1⟩ rfl rfl (by decide),
   (C7_date_range_check none (some ⟨2023, 1, 1⟩) (some ⟨2023, 5, 1⟩) 10).2
      (fun a b ha hb => by cases ha; cases hb; decide) (by decide) (by decide)⟩

/-- Fields of a successfully constructed Company in terms of the inputs. -/
theorem mkCompany_ok_fields {ticker cik name : String} {comp : Company}
    (h : mkCompany ticker cik name = .ok comp) :
    comp.ticker = pyStrip (pyUpper ticker) ∧ comp.cik = pyStrip cik ∧ comp.name = name := by
  simp only [mkCompany] at h
  split at h
  · exact absurd h (by simp)
  · split at h
    · exact absurd h (by simp)
    · split at h
      · exact absurd h (by simp)
      · split at h
        · exact absurd h (by simp)
        · split at h
          · exact absurd h (by simp)
          · injection h with h2
            subst h2
            exact ⟨rfl, rfl, rfl⟩

/-- C3: the successful result is exactly the first `limit` entries of the
sorted filtered sequence; its length never exceeds the limit; and when the
sorted filtered sequence is no longer than the limit it is returned whole,
with no error. -/
theorem C3_truncation (c : SECClient) (cik : String) (flt : FilingFilter)
    (raw : List RawFiling) (S : List Filing)
    (hne : ¬ pyStrip cik = "")
    (hraw : lookupDict c.filings (zfill (pyStrip cik) 10) = some raw)
    (hlim : 0 < flt.limit)
    (hS : S = sortFilings (applyFilters
      (raw.filterMap (buildFiling (zfill (pyStrip cik) 10))) flt)) :
    c.list_filings cik flt = .ok (S.take flt.limit.toNat) ∧
    ((S.take flt.limit.toNat).length : Int) ≤ flt.limit ∧
    (S.length ≤ flt.limit.toNat → S.take flt.limit.toNat = S) := by
  subst hS
  refine ⟨?_, ?_, fun hlen => List.take_of_length_le hlen⟩
  · simp only [SECClient.list_filings, if_neg hne, hraw]
    rw [pySliceTo, if_pos (Int.le_of_lt hlim)]
  · rw [List.length_take]
    have h1 : min flt.limit.toNat
        (sortFilings (applyFilters
          (raw.filterMap (buildFiling (zfill (pyStrip cik) 10))) flt)).length
        ≤ flt.limit.toNat := Nat.min_le_left _ _
    have h2 : (flt.limit.toNat : Int) = flt.limit := Int.toNat_of_nonneg (Int.le_of_lt hlim)
    omega

/-- C2: the returned sequence is sorted by filing date, most recent first,
for all adjacent pairs, and stably: for each date, its filings appear in the
same relative order as in the pre-sort filtered sequence. -/
theorem C2_sorted_stable (c : SECClient) (cik : String) (flt : FilingFilter)
    (raw : List RawFiling) (res : List Filing)
    (hraw : lookupDict c.filings (zfill (pyStrip cik) 10) = some raw)
    (h : c.list_filings cik flt = .ok res) :
    res.Pairwise filingGE ∧
    ∀ d : Date, List.Sublist (res.filter fun f => decide (f.filing_date = d))
      ((applyFilters (raw.filterMap (buildFiling (zfill (pyStrip cik) 10))) flt).filter
        fun f => decide (f.filing_date = d)) := by
  by_cases hne : pyStrip cik = ""
  · rw [SECClient.list_filings, if_pos hne] at h
    exact absurd h (by simp)
  · simp only [SECClient.list_filings, if_neg hne, hraw, Except.ok.injEq] at h
    subst h
    constructor
    · exact List.Pairwise.sublist (pySliceTo_sublist _ _) (sortFilings_pairwise _)
    · intro d
      have h1 := List.Sublist.filter (fun f => decide (f.filing_date = d))
        (pySliceTo_sublist (sortFilings (applyFilters
          (raw.filterMap (buildFiling (zfill (pyStrip cik) 10))) flt)) flt.limit)
      rw [sortFilings_filter] at h1
      exact h1

/-- C5: a raw record on which Filing construction fails (here: any record
`r` with `buildFiling r = none`, covering a missing key, a bad date, or a
failed validation) is dropped and only it: the query still succeeds and
returns exactly what the remaining records produce. -/
theorem C5_invalid_record_skipped (c : SECClient) (cik : String) (flt : FilingFilter)
    (raw1 raw2 : List RawFiling) (r : RawFiling)
    (hne : ¬ pyStrip cik = "")
    (hraw : lookupDict c.filings (zfill (pyStrip cik) 10) = some (raw1 ++ r :: raw2))
    (hbad : buildFiling (zfill (pyStrip cik) 10) r = none) :
    c.list_filings cik flt =
      .ok (pySliceTo (sortFilings (applyFilters
        ((raw1 ++ raw2).filterMap (buildFiling (zfill (pyStrip cik) 10))) flt)) flt.limit) := by
  simp [SECClient.list_filings, hne, hraw, List.filterMap_append, List.filterMap_cons, hbad]

/-- C8: when several raw company records share a normalized ticker, index
construction succeeds and the last such record is the one the index holds,
so `lookup_company` answers from it. -/
theorem C8_duplicate_ticker_last_wins (cd : List (String × RawCompany))
    (fd : Option (List (String × List RawFiling))) (t : String) (info : RawCompany)
    (hn : pyStrip (pyUpper t) = t) (hne : ¬ pyStrip t = "")
    (hlast : lastTickerRecord t cd = some info) :
    lookupDict (SECClient.build cd fd).companies_by_ticker t = some info ∧
    (SECClient.build cd fd).lookup_company t =
      mkCompany t (zfill (pyStr info.cik_str) 10) info.title := by
  have hidx : lookupDict (SECClient.build cd fd).companies_by_ticker t = some info := by
    rw [lookupDict_build, hlast]
  refine ⟨hidx, ?_⟩
  simp [SECClient.lookup_company, hne, hn, hidx]

/-- C4: `lookup_company` is case- and whitespace-insensitive — two inputs
with the same normalized form resolve identically — and on success the
Company carries the uppercased/trimmed input as ticker, the raw record's
`cik_str` zero-padded to 10 characters as cik, and the record's title as
name. -/
theorem C4_lookup_company (c : SECClient) (s1 s2 : String) :
    (pyStrip (pyUpper s1) = pyStrip (pyUpper s2) → ¬ pyStrip s1 = "" → ¬ pyStrip s2 = "" →
      c.lookup_company s1 = c.lookup_company s2) ∧
    (∀ comp, c.lookup_company s1 = .ok comp →
      ∃ info, lookupDict c.companies_by_ticker (pyStrip (pyUpper s1)) = some info ∧
        comp.ticker = pyStrip (pyUpper s1) ∧
        comp.cik = zfill (pyStr info.cik_str) 10 ∧
        comp.name = info.title) := by
  constructor
  · intro heq hne1 hne2
    rw [SECClient.lookup_company, SECClient.lookup_company, if_neg hne1, if_neg hne2, heq]
  · intro comp h
    by_cases hne : pyStrip s1 = ""
    · rw [SECClient.lookup_company, if_pos hne] at h
      exact absurd h (by simp)
    · simp only [SECClient.lookup_company, if_neg hne] at h
      cases hlook : lookupDict c.companies_by_ticker (pyStrip (pyUpper s1)) with
      | none =>
        rw [hlook] at h
        exact absurd h (by simp)
      | some info =>
        rw [hlook] at h
        obtain ⟨ht, hc, hn2⟩ := mkCompany_ok_fields h
        refine ⟨info, rfl, ?_, ?_, hn2⟩
        · rw [ht, normTicker_idem]
        · rw [hc, pyStrip_zfill_pyStr]

/-- Filter with every field absent and the default limit. -/
def noFilter : FilingFilter :=
  { form_types := none, date_from := none, date_to := none, limit := 10 }

/-- Valid 10-Q filing built from `sampleRawB`. -/
def sampleFilingQ : Filing :=
  { cik := "0000320193", company_name := "Apple Inc.", form_type := "10-Q",
    filing_date := ⟨2023, 6, 20⟩, accession_number := "acc3" }

/-- Company mapping with two records whose tickers normalize to "AAPL". -/
def dupCompanies : List (String × RawCompany) :=
  [("k1", { ticker := "AAPL", cik_str := 111, title := "First Record" }),
   ("k2", { ticker := " aapl", cik_str := 320193, title := "Apple Inc." })]

/-- C2, witness at a concrete engine: the two valid filings come back most
recent first, and the 2023-06-20 slice keeps its pre-sort order. -/
theorem C2_witness :
    List.Pairwise filingGE [sampleFilingQ, sampleFiling] ∧
    List.Sublist
      ([sampleFilingQ, sampleFiling].filter fun f => decide (f.filing_date = ⟨2023, 6, 20⟩))
      ((applyFilters ([sampleRawA, sampleRawBad, sampleRawB].filterMap
          (buildFiling (zfill (pyStrip "320193") 10))) noFilter).filter
        fun f => decide (f.filing_date = ⟨2023, 6, 20⟩)) :=
  ⟨(C2_sorted_stable sampleClient "320193" noFilter [sampleRawA, sampleRawBad, sampleRawB]
      [sampleFilingQ, sampleFiling] (by decide) (by decide)).1,
   (C2_sorted_stable sampleClient "320193" noFilter [sampleRawA, sampleRawBad, sampleRawB]
      [sampleFilingQ, sampleFiling] (by decide) (by decide)).2 ⟨2023, 6, 20⟩⟩

/-- C3, witness: with limit 1 the single most recent filing is returned. -/
theorem C3_witness :
    sampleClient.list_filings "320193"
      { form_types := none, date_from := none, date_to := none, limit := 1 } =
      .ok ([sampleFilingQ, sampleFiling].take (1 : Int).toNat) ∧
    (([sampleFilingQ, sampleFiling].take (1 : Int).toNat).length : Int) ≤ 1 ∧
    ([sampleFilingQ, sampleFiling].length ≤ (1 : Int).toNat →
      [sampleFilingQ, sampleFiling].take (1 : Int).toNat = [sampleFilingQ, sampleFiling]) :=
  C3_truncation sampleClient "320193"
    { form_types := none, date_from := none, date_to := none, limit := 1 }
    [sampleRawA, sampleRawBad, sampleRawB] [sampleFilingQ, sampleFiling]
    (by decide) (by decide) (by decide) (by decide)

/-- C4, witness: " aapl " and "AAPL" resolve identically, and the resolved
Company is `Company(ticker="AAPL", cik="0000320193", name="Apple Inc.")`. -/
theorem C4_witness :
    sampleClient.lookup_company " aapl " = sampleClient.lookup_company "AAPL" ∧
    ∃ info, lookupDict sampleClient.companies_by_ticker (pyStrip (pyUpper " aapl ")) = some info ∧
      (Company.mk "AAPL" "0000320193" "Apple Inc.").ticker = pyStrip (pyUpper " aapl ") ∧
      (Company.mk "AAPL" "0000320193" "Apple Inc.").cik = zfill (pyStr info.cik_str) 10 ∧
      (Company.mk "AAPL" "0000320193" "Apple Inc.").name = info.title :=
  ⟨(C4_lookup_company sampleClient " aapl " "AAPL").1 (by decide) (by decide) (by decide),
   (C4_lookup_company sampleClient " aapl " "AAPL").2
      (Company.mk "AAPL" "0000320193" "Apple Inc.") (by decide)⟩

/-- C5, witness: the record missing `accession_number` is dropped; the query
answers exactly from the two valid records, with no error. -/
theorem C5_witness :
    sampleClient.list_filings "320193" noFilter =
      .ok (pySliceTo (sortFilings (applyFilters (([sampleRawA] ++ [sampleRawB]).filterMap
        (buildFiling (zfill (pyStrip "320193") 10))) noFilter)) noFilter.limit) :=
  C5_invalid_record_skipped sampleClient "320193" noFilter [sampleRawA] [sampleRawB] sampleRawBad
    (by decide) (by decide) (by decide)

/-- C8, witness: with two records normalizing to "AAPL", the later one
(cik_str 320193) wins the index and the lookup. -/
theorem C8_witness :
    lookupDict (SECClient.build dupCompanies none).companies_by_ticker "AAPL" =
      some { ticker := " aapl", cik_str := 320193, title := "Apple Inc." } ∧
    (SECClient.build dupCompanies none).lookup_company "AAPL" =
      mkCompany "AAPL" (zfill (pyStr 320193) 10) "Apple Inc." :=
  C8_duplicate_ticker_last_wins dupCompanies none "AAPL"
    { ticker := " aapl", cik_str := 320193, title := "Apple Inc." }
    (by decide) (by decide) (by decide)

end Sec
